import Mathlib

/-!
Verification development for the Multi-Model AI Response Fusion service
(source: src/main.py).  The program is shallowly embedded over `List Char`:
Python strings become `List Char`, the judge-response parser and the markup
normalizer are translated operation by operation, and the fan-out pipeline is
modelled with an explicit completion order for the three concurrent calls.
-/

/-- Strings of the embedded program, as lists of characters. -/
abbrev Str := List Char

/-- Python whitespace, as tested by str.strip and matched by regex \s:
space, tab, newline, carriage return, vertical tab, form feed. -/
def isPySpace (c : Char) : Bool :=
  c == ' ' || c == '\t' || c == '\n' || c == '\r' || c == '\x0b' || c == '\x0c'

/-- Python str.strip(): remove leading and trailing whitespace. -/
def pyStrip (s : Str) : Str :=
  ((s.dropWhile isPySpace).reverse.dropWhile isPySpace).reverse

/-- Python str.split with separator a single newline (main.py line 182 and 248). -/
def splitLines : Str → List Str
  | [] => [[]]
  | c :: t =>
    if c = '\n' then [] :: splitLines t
    else
      match splitLines t with
      | l :: ls => (c :: l) :: ls
      | [] => [[c]]

/-- Python newline join of lines. -/
def joinLines (ls : List Str) : Str := List.intercalate ['\n'] ls

/-- True when the pattern occurs nowhere in the string (as a contiguous
substring); a scanner over all suffixes, convenient for induction. -/
def noOcc (pat : Str) : Str → Bool
  | [] => !pat.isPrefixOf []
  | c :: cs => !pat.isPrefixOf (c :: cs) && noOcc pat cs

/-- Python str.replace(pat, ""): scan left to right, removing each
non-overlapping occurrence of `pat` and continuing after it.  Fuel-based so
that the definition is structural; `removeAll` supplies adequate fuel. -/
def removeAllF (pat : Str) : Nat → Str → Str
  | 0, s => s
  | _ + 1, [] => []
  | f + 1, c :: cs =>
    if pat.isPrefixOf (c :: cs) then removeAllF pat f ((c :: cs).drop pat.length)
    else c :: removeAllF pat f cs

/-- Python str.replace(pat, "") for a non-empty pattern. -/
def removeAll (pat s : Str) : Str := removeAllF pat s.length s

/-- Split a string at the first occurrence of `pat`: returns the part before
the occurrence and the part after it.  This mirrors leftmost matching of a
literal (or lazily-quantified) regex fragment. -/
def splitFirst (pat : Str) : Str → Option (Str × Str)
  | [] => none
  | c :: cs =>
    if pat.isPrefixOf (c :: cs) then some ([], (c :: cs).drop pat.length)
    else (splitFirst pat cs).map (fun p => (c :: p.1, p.2))

/-- The literal marker FINAL_ANSWER: of main.py lines 188-190. -/
def mFA : Str := ['F', 'I', 'N', 'A', 'L', '_', 'A', 'N', 'S', 'W', 'E', 'R', ':']

/-- The literal marker REASONING: of main.py lines 192-194. -/
def mRS : Str := ['R', 'E', 'A', 'S', 'O', 'N', 'I', 'N', 'G', ':']

/-- The current_section state of the judge-response scanner
(main.py line 186): no section yet, final answer, or reasoning. -/
inductive Sect
  | none
  | fa
  | rs
deriving DecidableEq

/-- The pair returned by the judge synthesizer (main.py lines 223-226). -/
structure JudgeResult where
  final_answer : Str
  reasoning : Str
deriving DecidableEq

/-- One iteration of the parsing loop of process_with_judge
(main.py lines 187-200).  State: (current_section, final_answer, reasoning).
A line starting with FINAL_ANSWER: assigns the final answer to the line with
every occurrence of the marker removed (str.replace) and stripped; REASONING:
analogously; any other line is appended, with a leading space, to the field of
the current section, and dropped when no section is active yet. -/
def scanStep (st : Sect × Str × Str) (line : Str) : Sect × Str × Str :=
  if mFA.isPrefixOf line then
    (Sect.fa, pyStrip (removeAll mFA line), st.2.2)
  else if mRS.isPrefixOf line then
    (Sect.rs, st.2.1, pyStrip (removeAll mRS line))
  else
    match st.1 with
    | Sect.none => st
    | Sect.fa => (Sect.fa, st.2.1 ++ ' ' :: pyStrip line, st.2.2)
    | Sect.rs => (Sect.rs, st.2.1, st.2.2 ++ ' ' :: pyStrip line)

/-- The full parsing loop of main.py lines 182-200: split the raw judge
output on newlines and fold the scanner over the lines. -/
def judgeScan (raw : Str) : Sect × Str × Str :=
  (splitLines raw).foldl scanStep (Sect.none, [], [])

/-- The parsing part of process_with_judge (main.py lines 182-226).  After the
scan, if both accumulated fields are empty up to whitespace, the fallback of
lines 202-215 assigns the whole raw response, stripped, to the final answer
(both fallback branches assign the same value; the case-insensitive marker
search only selects which message is logged).  The returned fields are
stripped (lines 223-226). -/
def process_with_judge_parse (raw : Str) : JudgeResult :=
  let st := judgeScan raw
  if pyStrip st.2.1 = [] ∧ pyStrip st.2.2 = [] then
    { final_answer := pyStrip (pyStrip raw), reasoning := pyStrip st.2.2 }
  else
    { final_answer := pyStrip st.2.1, reasoning := pyStrip st.2.2 }

example :
    process_with_judge_parse ("FINAL_ANSWER: Hello\nworld\nREASONING: because X").data
      = { final_answer := ("Hello world").data, reasoning := ("because X").data } := by
  decide

example :
    process_with_judge_parse ("Just a plain answer.").data
      = { final_answer := ("Just a plain answer.").data, reasoning := [] } := by
  decide

/-! ## Markup normalizer (convert_to_markup, main.py lines 228-284)

The regexes of steps 1-4 use MULTILINE and a dot that does not match
newlines, so each acts independently on each line; they are embedded as
per-line passes applied before the per-line processing of step 5.
-/

/-- Step 1a: re.sub(^###\s*(.*), <h3>\1</h3>, MULTILINE) on one line. -/
def h3Pass (line : Str) : Str :=
  if (['#', '#', '#'] : Str).isPrefixOf line then
    ['<', 'h', '3', '>'] ++ (line.drop 3).dropWhile isPySpace ++ ['<', '/', 'h', '3', '>']
  else line

/-- Step 1b: the analogous ## pass (runs after the ### pass). -/
def h2Pass (line : Str) : Str :=
  if (['#', '#'] : Str).isPrefixOf line then
    ['<', 'h', '2', '>'] ++ (line.drop 2).dropWhile isPySpace ++ ['<', '/', 'h', '2', '>']
  else line

/-- Step 1c: the analogous # pass (runs after the ## pass). -/
def h1Pass (line : Str) : Str :=
  if (['#'] : Str).isPrefixOf line then
    ['<', 'h', '1', '>'] ++ (line.drop 1).dropWhile isPySpace ++ ['<', '/', 'h', '1', '>']
  else line

/-- Step 2: re.sub(^---+, <hr>, MULTILINE) on one line: a leading run of
three or more dashes (greedy, so the maximal run) is replaced by <hr>. -/
def hrPass (line : Str) : Str :=
  if (['-', '-', '-'] : Str).isPrefixOf line then
    ['<', 'h', 'r', '>'] ++ line.dropWhile (· == '-')
  else line

/-- Steps 3 and 4: re.sub of opn(.*?)cls with tagO\1tagC.  Leftmost match:
first occurrence of the opening delimiter, content lazily up to the next
occurrence of the closing delimiter; scanning continues after the match.
When no complete match exists the string is unchanged. -/
def emphGoF (opn cls tagO tagC : Str) : Nat → Str → Str
  | 0, s => s
  | f + 1, s =>
    match splitFirst opn s with
    | Option.none => s
    | some (a, b) =>
      match splitFirst cls b with
      | Option.none => s
      | some (m, r) => a ++ tagO ++ m ++ tagC ++ emphGoF opn cls tagO tagC f r

/-- Step 3: bold, \*\*(.*?)\*\* to <strong>...</strong>. -/
def boldPass (s : Str) : Str :=
  emphGoF ['*', '*'] ['*', '*'] ("<strong>").data ("</strong>").data s.length s

/-- Step 4: italic, \*(.*?)\* to <em>...</em> (after the bold pass). -/
def italicPass (s : Str) : Str :=
  emphGoF ['*'] ['*'] ("<em>").data ("</em>").data s.length s

/-- re.match(^\d+\.\s, line): one or more digits, a dot, one whitespace. -/
def startsNumDot (l : Str) : Bool :=
  let ds := l.takeWhile Char.isDigit
  ds ≠ [] &&
    match l.drop ds.length with
    | '.' :: c :: _ => isPySpace c
    | _ => false

/-- re.sub(^[-\d\.]+\s*, "", line): strip the leading run of dashes, digits
and dots, then the following whitespace (main.py line 263). -/
def liContent (l : Str) : Str :=
  (l.dropWhile (fun c => c == '-' || c.isDigit || c == '.')).dropWhile isPySpace

/-- Python line.endswith with a one-character suffix. -/
def endsWithGT (l : Str) : Bool := (['>'] : Str).isPrefixOf l.reverse

/-- Step 5 (main.py lines 251-271): strip the line, then classify it: blank
lines become <br>; lines that look like an already-produced header (start
with <h, end with >) or rule (start with <hr>) pass through; dash- or
number-prefixed lines become list items; quote lines become blockquotes;
everything else is wrapped in a paragraph. -/
def processLine (line : Str) : Str :=
  let l := pyStrip line
  if l = [] then ("<br>").data
  else if (['<', 'h'] : Str).isPrefixOf l && endsWithGT l then l
  else if (['<', 'h', 'r', '>'] : Str).isPrefixOf l then l
  else if (['-', ' '] : Str).isPrefixOf l || startsNumDot l then
    ("<li>").data ++ liContent l ++ ("</li>").data
  else if (['>', ' '] : Str).isPrefixOf l then
    ("<blockquote class=\"blockquote\"><p>").data ++ l.drop 2 ++ ("</p></blockquote>").data
  else ("<p>").data ++ l ++ ("</p>").data

/-- One iteration of the group (<li>.*?</li>\n?) of step 6 (DOTALL, lazy):
a leading <li>, content up to the first </li>, and an optional newline.
Returns the matched text and the remainder. -/
def liIter (s : Str) : Option (Str × Str) :=
  if (['<', 'l', 'i', '>'] : Str).isPrefixOf s then
    match splitFirst (['<', '/', 'l', 'i', '>'] : Str) (s.drop 4) with
    | Option.none => Option.none
    | some (a, b) =>
      match b with
      | '\n' :: t => some (("<li>").data ++ a ++ ("</li>\n").data, t)
      | _ => some (("<li>").data ++ a ++ ("</li>").data, b)
  else Option.none

/-- The greedy repetition (<li>.*?</li>\n?)+ : as many iterations as
possible, at least one. -/
def liRunF : Nat → Str → Option (Str × Str)
  | 0, _ => Option.none
  | f + 1, s =>
    match liIter s with
    | Option.none => Option.none
    | some (m, r) =>
      match liRunF f r with
      | some (m2, r2) => some (m ++ m2, r2)
      | Option.none => some (m, r)

/-- Step 6 (main.py line 277): wrap each maximal run of consecutive list
items in a single unordered-list container; the replacement is the wrapper
around the whole matched run, and scanning continues after it. -/
def groupLiF : Nat → Str → Str
  | 0, s => s
  | _ + 1, [] => []
  | f + 1, c :: cs =>
    match liRunF (c :: cs).length (c :: cs) with
    | some (m, r) =>
      ("<ul class=\"list-unstyled\">\n").data ++ m ++ ("</ul>").data ++ groupLiF f r
    | Option.none => c :: groupLiF f cs

/-- Step 6 with adequate fuel. -/
def groupLi (s : Str) : Str := groupLiF s.length s

/-- Step 7b helper: match <br>\s*<br> at the head of the string (greedy
whitespace must be followed by the second <br>); returns the remainder. -/
def brTry (s : Str) : Option Str :=
  if (['<', 'b', 'r', '>'] : Str).isPrefixOf s then
    let t := (s.drop 4).dropWhile isPySpace
    if (['<', 'b', 'r', '>'] : Str).isPrefixOf t then some (t.drop 4) else Option.none
  else Option.none

/-- Step 7b (main.py line 281): re.sub(<br>\s*<br>, <br>): one left-to-right
pass over non-overlapping matches; the replacement is not rescanned. -/
def collapseBrF : Nat → Str → Str
  | 0, s => s
  | _ + 1, [] => []
  | f + 1, c :: cs =>
    match brTry (c :: cs) with
    | some r => ("<br>").data ++ collapseBrF f r
    | Option.none => c :: collapseBrF f cs

/-- Step 7b with adequate fuel. -/
def collapseBr (s : Str) : Str := collapseBrF s.length s

/-- Step 7c (main.py line 282): re.sub(\n+, \n): drop every newline that
immediately follows another newline. -/
def collapseNLGo : Bool → Str → Str
  | _, [] => []
  | prev, c :: cs =>
    if c == '\n' && prev then collapseNLGo true cs
    else c :: collapseNLGo (c == '\n') cs

/-- Step 7c entry point. -/
def collapseNL (s : Str) : Str := collapseNLGo false s

/-- convert_to_markup (main.py lines 228-284): empty input stays empty;
otherwise headers, rules, bold and italic are rewritten per line, each line
is classified (step 5), the lines are joined, list items are grouped,
empty paragraphs are removed, duplicate breaks collapse, newline runs
collapse, and the result is stripped. -/
def convert_to_markup (text : Str) : Str :=
  if text = [] then []
  else
    pyStrip (collapseNL (collapseBr (removeAll ['<', 'p', '>', '<', '/', 'p', '>']
      (groupLi (joinLines ((splitLines text).map
        (fun l => processLine (italicPass (boldPass (hrPass
          (h1Pass (h2Pass (h3Pass l)))))))))))))

example :
    convert_to_markup ("**bold** and *italic*").data
      = ("<p><strong>bold</strong> and <em>italic</em></p>").data := by
  decide

example :
    convert_to_markup ("- a\n- b").data
      = ("<ul class=\"list-unstyled\">\n<li>a</li>\n<li>b</li></ul>").data := by
  decide

example : convert_to_markup ("# Title").data = ("<h1>Title</h1>").data := by
  decide

example : convert_to_markup ("---").data = ("<hr>").data := by decide

example : convert_to_markup ("***").data = ("<p><em></em>*</p>").data := by decide

example :
    convert_to_markup ("a\n\n\nb").data = ("<p>a</p>\n<br>\n<p>b</p>").data := by
  decide

example :
    convert_to_markup ("a\n\n\n\nb").data
      = ("<p>a</p>\n<br>\n<br>\n<p>b</p>").data := by
  decide

/-! ## Fan-out orchestration and endpoints (main.py lines 133-171, 286-331, 342-413)

The three backend calls run concurrently under asyncio.gather; results are
positional, and the first exception in completion order propagates.  The
nondeterministic completion order is an explicit parameter (a permutation of
the three task indices); the judge backend is an oracle from prompt text to
raw response.
-/

/-- The error component of a call result, if any. -/
def errOf : Except Str Str → Option Str
  | Except.error e => some e
  | Except.ok _ => Option.none

/-- asyncio.gather over the three model tasks (main.py line 306): if some
task fails, the failure first in completion order propagates; otherwise the
three results are returned positionally. -/
def gatherThree (order : List (Fin 3)) (t : Fin 3 → Except Str Str) :
    Except Str (Str × Str × Str) :=
  match order.findSome? (fun i => errOf (t i)) with
  | some e => Except.error e
  | Option.none =>
    match t 0, t 1, t 2 with
    | Except.ok a, Except.ok b, Except.ok c => Except.ok (a, b, c)
    | Except.error e, _, _ => Except.error e
    | _, Except.error e, _ => Except.error e
    | _, _, Except.error e => Except.error e

/-- The mapping from the fixed labels MODEL1/MODEL2/MODEL3 to response text
(main.py lines 308-312 and 384-388). -/
structure TripleResponse where
  MODEL1 : Str
  MODEL2 : Str
  MODEL3 : Str
deriving DecidableEq

/-- The judge meta-prompt of main.py lines 142-169: the judge task, the
question, the three labelled responses with their configured display names,
the markup instructions and the two section markers. -/
def judge_prompt (question : Str) (names : Fin 3 → Str) (tr : TripleResponse) : Str :=
  ("You are an expert AI judge tasked with synthesizing responses from multiple AI models.\n\nUser Question: ").data
    ++ question
    ++ ("\n\nModel Responses:\nMODEL1 (").data ++ names 0 ++ ("): ").data ++ tr.MODEL1
    ++ ("\n\nMODEL2 (").data ++ names 1 ++ ("): ").data ++ tr.MODEL2
    ++ ("\n\nMODEL3 (").data ++ names 2 ++ ("): ").data ++ tr.MODEL3
    ++ ("\n\nPlease provide:\n1. A final synthesized answer that combines the best aspects of all three responses\n2. Your reasoning for how you arrived at this synthesis\n\nIMPORTANT: Format your FINAL_ANSWER section using proper HTML markup:\n- Use <h1>, <h2>, <h3> for headers\n- Use <strong> for bold text instead of **bold**\n- Use <em> for italic text instead of *italic*\n- Use <ul><li> for bullet lists instead of - bullets\n- Use <ol><li> for numbered lists instead of 1. 2. 3.\n- Use <p> for paragraphs\n- Use <hr> for horizontal rules instead of ---\n- Use <blockquote> for quotes instead of >\n\nFormat your response as:\nFINAL_ANSWER: [Your synthesized response in HTML format here]\nREASONING: [Your reasoning process here]").data

/-- process_with_judge (main.py lines 133-226): build the meta-prompt, call
the judge backend (the oracle), parse the raw response. -/
def process_with_judge (oracle : Str → Str) (question : Str) (names : Fin 3 → Str)
    (tr : TripleResponse) : JudgeResult :=
  process_with_judge_parse (oracle (judge_prompt question names tr))

/-- The response model of the /ask endpoint (main.py lines 50-53, 320-324):
the input, optionally the per-backend texts, and the judge result. -/
structure ModelResponseOut where
  input : Str
  models : Option TripleResponse
  judge : JudgeResult
deriving DecidableEq

/-- ask_question (main.py lines 286-331): gather the three backend results;
on failure the error propagates and the judge is never consulted; on success
the labelled mapping is built positionally, the judge synthesizes, and the
raw texts are included only when the configuration flag is set. -/
def ask_question (question : Str) (order : List (Fin 3)) (t : Fin 3 → Except Str Str)
    (oracle : Str → Str) (names : Fin 3 → Str) (showFlag : Bool) :
    Except Str ModelResponseOut :=
  match gatherThree order t with
  | Except.error e => Except.error e
  | Except.ok (a, b, c) =>
    Except.ok
      { input := question
        models := if showFlag then some ⟨a, b, c⟩ else Option.none
        judge := process_with_judge oracle question names ⟨a, b, c⟩ }

/-- web_ask_question (main.py lines 342-413): gather the three results, run
the judge, and return the final answer field directly (line 394: the judge
output is used as-is). -/
def web_ask_question (question : Str) (order : List (Fin 3)) (t : Fin 3 → Except Str Str)
    (oracle : Str → Str) (names : Fin 3 → Str) : Except Str Str :=
  match gatherThree order t with
  | Except.error e => Except.error e
  | Except.ok (a, b, c) =>
    Except.ok (process_with_judge oracle question names ⟨a, b, c⟩).final_answer

/-- The canonical task order MODEL1, MODEL2, MODEL3. -/
def order3 : List (Fin 3) := [0, 1, 2]

/-! ## Auxiliary lemmas about the string primitives -/

theorem lem_dropWhile_ne {p : Char → Bool} :
    ∀ {s : Str} {c : Char} {t : Str}, s.dropWhile p = c :: t → p c = false := by
  intro s
  induction s with
  | nil => intro c t h; simp [List.dropWhile] at h
  | cons a as ih =>
    intro c t h
    by_cases hp : p a
    · rw [List.dropWhile_cons_of_pos hp] at h
      exact ih h
    · rw [List.dropWhile_cons_of_neg hp] at h
      cases h
      exact Bool.eq_false_iff.mpr hp

theorem lem_strip_eq {s : Str} (h1 : s.dropWhile isPySpace = s)
    (h2 : s.reverse.dropWhile isPySpace = s.reverse) : pyStrip s = s := by
  unfold pyStrip
  rw [h1, h2, List.reverse_reverse]

theorem lem_trimL_strip (s : Str) :
    (pyStrip s).dropWhile isPySpace = pyStrip s := by
  cases h : pyStrip s with
  | nil => simp
  | cons d ds =>
    have hsuf : (s.dropWhile isPySpace).reverse.dropWhile isPySpace
        <:+ (s.dropWhile isPySpace).reverse := List.dropWhile_suffix isPySpace
    obtain ⟨w, hw⟩ := hsuf
    have hu : pyStrip s ++ w.reverse = s.dropWhile isPySpace := by
      have := congrArg List.reverse hw
      simpa [pyStrip] using this
    have hidem : (s.dropWhile isPySpace).dropWhile isPySpace = s.dropWhile isPySpace :=
      List.dropWhile_idempotent _ _
    rw [h] at hu
    rw [← hu] at hidem
    have hd : isPySpace d = false := lem_dropWhile_ne hidem
    rw [List.dropWhile_cons_of_neg (by simp [hd])]

theorem lem_strip_idem (s : Str) : pyStrip (pyStrip s) = pyStrip s := by
  have h1 := lem_trimL_strip s
  show ((((pyStrip s).dropWhile isPySpace).reverse).dropWhile isPySpace).reverse = pyStrip s
  rw [h1]
  have hrev : (pyStrip s).reverse
      = ((s.dropWhile isPySpace).reverse).dropWhile isPySpace := by
    simp [pyStrip]
  rw [hrev, List.dropWhile_idempotent]
  simp [pyStrip]

theorem lem_strip_nil {s : Str} :
    pyStrip s = [] ↔ ∀ c ∈ s, isPySpace c = true := by
  constructor
  · intro h c hc
    have h' : (s.dropWhile isPySpace).reverse.dropWhile isPySpace = [] := by
      have := congrArg List.reverse h
      simpa [pyStrip] using this
    have hall : ∀ c ∈ s.dropWhile isPySpace, isPySpace c = true := by
      intro c hc
      exact List.dropWhile_eq_nil_iff.mp h' c (by simpa using hc)
    have hnil : s.dropWhile isPySpace = [] := by
      cases hu : s.dropWhile isPySpace with
      | nil => rfl
      | cons d ds =>
        have hd := lem_dropWhile_ne hu
        have := hall d (by rw [hu]; exact List.mem_cons_self d ds)
        rw [this] at hd
        cases hd
    exact List.dropWhile_eq_nil_iff.mp hnil c hc
  · intro h
    have : s.dropWhile isPySpace = [] := List.dropWhile_eq_nil_iff.mpr h
    simp [pyStrip, this]

theorem lem_trimL_ws_append {w s : Str} (hw : ∀ c ∈ w, isPySpace c = true) :
    (w ++ s).dropWhile isPySpace = s.dropWhile isPySpace := by
  induction w with
  | nil => rfl
  | cons a as ih =>
    have ha : isPySpace a = true := hw a (List.mem_cons_self a as)
    simp only [List.cons_append, List.dropWhile_cons_of_pos ha]
    exact ih (fun c hc => hw c (List.mem_cons_of_mem a hc))

theorem lem_strip_ws_pad {w s : Str} (hw : ∀ c ∈ w, isPySpace c = true) :
    pyStrip (w ++ s) = pyStrip s := by
  unfold pyStrip
  rw [lem_trimL_ws_append hw]

theorem lem_isPrefixOf_append_self (pat r : Str) : pat.isPrefixOf (pat ++ r) = true := by
  induction pat with
  | nil => simp [List.isPrefixOf]
  | cons a as ih => simp [List.isPrefixOf, ih]

theorem lem_noOcc_cons {pat : Str} {c : Char} {cs : Str} (h : noOcc pat (c :: cs) = true) :
    pat.isPrefixOf (c :: cs) = false ∧ noOcc pat cs = true := by
  simpa [noOcc, Bool.and_eq_true, Bool.not_eq_true'] using h

theorem lem_removeAllF_noOcc {pat : Str} :
    ∀ (f : Nat) (s : Str), noOcc pat s = true → removeAllF pat f s = s := by
  intro f
  induction f with
  | zero => intro s _; rfl
  | succ f ih =>
    intro s h
    cases s with
    | nil => rfl
    | cons c cs =>
      obtain ⟨h1, h2⟩ := lem_noOcc_cons h
      simp [removeAllF, h1, ih cs h2]

theorem lem_removeAll_noOcc {pat s : Str} (h : noOcc pat s = true) :
    removeAll pat s = s :=
  lem_removeAllF_noOcc _ s h

theorem lem_removeAllF_fuel {pat : Str} (hp : pat ≠ []) :
    ∀ (f : Nat) (s : Str), s.length ≤ f → removeAllF pat f s = removeAll pat s := by
  intro f
  induction f using Nat.strong_induction_on with
  | _ f ih =>
    intro s hs
    cases f with
    | zero =>
      cases s with
      | nil => rfl
      | cons c cs => simp at hs
    | succ f =>
      cases s with
      | nil => rfl
      | cons c cs =>
        have hcs : cs.length ≤ f := by simpa using hs
        have hplen : 0 < pat.length := List.length_pos.mpr hp
        by_cases hpre : pat.isPrefixOf (c :: cs) = true
        · have hlen : ((c :: cs).drop pat.length).length ≤ cs.length := by
            simp only [List.length_drop, List.length_cons]
            omega
          have e1 : removeAllF pat (f + 1) (c :: cs)
              = removeAllF pat f ((c :: cs).drop pat.length) := by
            simp [removeAllF, hpre]
          have e2 : removeAll pat (c :: cs)
              = removeAllF pat cs.length ((c :: cs).drop pat.length) := by
            simp [removeAll, removeAllF, hpre]
          rw [e1, e2, ih f (Nat.lt_succ_self f) _ (le_trans hlen hcs),
            ih cs.length (Nat.lt_succ_of_le hcs) _ hlen]
        · have e1 : removeAllF pat (f + 1) (c :: cs) = c :: removeAllF pat f cs := by
            simp [removeAllF, hpre]
          have e2 : removeAll pat (c :: cs) = c :: removeAllF pat cs.length cs := by
            simp [removeAll, removeAllF, hpre]
          rw [e1, e2, ih f (Nat.lt_succ_self f) _ hcs]
          rfl

theorem lem_removeAll_marker_start {p : Char} {ps r : Str} :
    removeAll (p :: ps) ((p :: ps) ++ r) = removeAll (p :: ps) r := by
  have hpre := lem_isPrefixOf_append_self (p :: ps) r
  have e1 : removeAll (p :: ps) ((p :: ps) ++ r)
      = removeAllF (p :: ps) (ps ++ r).length ((p :: (ps ++ r)).drop (p :: ps).length) := by
    simp only [removeAll, List.cons_append, List.length_cons]
    simp [removeAllF, hpre]
  have e2 : (p :: (ps ++ r)).drop (p :: ps).length = r := by
    have : (p :: (ps ++ r)) = (p :: ps) ++ r := by simp
    rw [this]
    exact List.drop_left _ _
  rw [e1, e2]
  exact lem_removeAllF_fuel (by simp) _ _ (by simp)

theorem lem_removeAll_skip {p : Char} {ps : Str} :
    ∀ {u r : Str}, (∀ c ∈ u, c ≠ p) →
      removeAll (p :: ps) (u ++ r) = u ++ removeAll (p :: ps) r := by
  intro u
  induction u with
  | nil => intro r _; rfl
  | cons c cs ih =>
    intro r hu
    have hc : c ≠ p := hu c (List.mem_cons_self c cs)
    have hpre : (p :: ps).isPrefixOf (c :: (cs ++ r)) = false := by
      simp [List.isPrefixOf, Ne.symm hc]
    have e1 : removeAll (p :: ps) ((c :: cs) ++ r)
        = c :: removeAllF (p :: ps) (cs ++ r).length (cs ++ r) := by
      simp only [removeAll, List.cons_append, List.length_cons]
      simp [removeAllF, hpre]
    rw [e1]
    have : removeAllF (p :: ps) (cs ++ r).length (cs ++ r) = removeAll (p :: ps) (cs ++ r) := rfl
    rw [this, ih (fun d hd => hu d (List.mem_cons_of_mem c hd))]
    rfl

theorem lem_noOcc_skip {p : Char} {ps : Str} :
    ∀ {u tail : Str}, (∀ c ∈ u, c ≠ p) →
      noOcc (p :: ps) (u ++ tail) = noOcc (p :: ps) tail := by
  intro u
  induction u with
  | nil => intro tail _; rfl
  | cons c cs ih =>
    intro tail hu
    have hc : c ≠ p := hu c (List.mem_cons_self c cs)
    have hpre : (p :: ps).isPrefixOf (c :: (cs ++ tail)) = false := by
      simp [List.isPrefixOf, Ne.symm hc]
    show noOcc (p :: ps) ((c :: cs) ++ tail) = _
    rw [List.cons_append]
    show (!(p :: ps).isPrefixOf (c :: (cs ++ tail)) && noOcc (p :: ps) (cs ++ tail)) = _
    rw [hpre]
    simp only [Bool.not_false, Bool.true_and]
    exact ih (fun d hd => hu d (List.mem_cons_of_mem c hd))

theorem lem_noOcc_of_ne {p : Char} {ps u : Str} (hu : ∀ c ∈ u, c ≠ p) :
    noOcc (p :: ps) u = true := by
  have : noOcc (p :: ps) (u ++ []) = noOcc (p :: ps) [] := lem_noOcc_skip hu
  rw [List.append_nil] at this
  rw [this]
  simp [noOcc, List.isPrefixOf]

theorem lem_splitFirst_spec {pat : Str} :
    ∀ {s a b : Str}, splitFirst pat s = some (a, b) → s = a ++ pat ++ b := by
  intro s
  induction s with
  | nil => intro a b h; simp [splitFirst] at h
  | cons c cs ih =>
    intro a b h
    by_cases hpre : pat.isPrefixOf (c :: cs) = true
    · rw [show splitFirst pat (c :: cs)
          = some ([], (c :: cs).drop pat.length) by simp [splitFirst, hpre]] at h
      obtain ⟨ha, hb⟩ := Prod.mk.injEq .. ▸ Option.some.injEq .. ▸ h
      obtain ⟨t, ht⟩ := List.isPrefixOf_iff_prefix.mp hpre
      subst ha
      rw [← hb, ← ht, List.drop_left]
      simp
    · rw [show splitFirst pat (c :: cs)
          = (splitFirst pat cs).map (fun p => (c :: p.1, p.2)) by
            simp [splitFirst, hpre]] at h
      rcases hsp : splitFirst pat cs with _ | ⟨a', b'⟩
      · rw [hsp] at h; simp at h
      · rw [hsp] at h
        simp only [Option.map_some', Option.some.injEq, Prod.mk.injEq] at h
        obtain ⟨ha, hb⟩ := h
        rw [← ha, ← hb, ih hsp]
        simp

theorem lem_splitFirst_none_of_ne {p : Char} {ps : Str} :
    ∀ {s : Str}, (∀ c ∈ s, c ≠ p) → splitFirst (p :: ps) s = Option.none := by
  intro s
  induction s with
  | nil => intro _; rfl
  | cons c cs ih =>
    intro h
    have hc : c ≠ p := h c (List.mem_cons_self c cs)
    have hpre : (p :: ps).isPrefixOf (c :: cs) = false := by
      simp [List.isPrefixOf, Ne.symm hc]
    simp [splitFirst, hpre, ih (fun d hd => h d (List.mem_cons_of_mem c hd))]

theorem lem_emph_noop1 {opn cls tagO tagC : Str} {f : Nat} {s : Str}
    (h : splitFirst opn s = Option.none) : emphGoF opn cls tagO tagC f s = s := by
  cases f with
  | zero => rfl
  | succ f => simp [emphGoF, h]

theorem lem_emph_noop2 {opn cls tagO tagC : Str} {f : Nat} {s a b : Str}
    (h1 : splitFirst opn s = some (a, b)) (h2 : splitFirst cls b = Option.none) :
    emphGoF opn cls tagO tagC f s = s := by
  cases f with
  | zero => rfl
  | succ f => simp [emphGoF, h1, h2]

theorem lem_count_ne {s : Str} {p : Char} (h : ∀ c ∈ s, c ≠ p) : s.count p = 0 := by
  exact List.count_eq_zero.mpr (fun hp => (h p hp) rfl)

theorem lem_ne_of_count_zero {s : Str} {p : Char} (h : s.count p = 0) :
    ∀ c ∈ s, c ≠ p := by
  intro c hc he
  subst he
  exact (List.count_eq_zero.mp h) hc

theorem lem_italic_noop {s : Str} (h : s.count '*' ≤ 1) : italicPass s = s := by
  unfold italicPass
  rcases hsp : splitFirst ['*'] s with _ | ⟨a, b⟩
  · exact lem_emph_noop1 hsp
  · have hs := lem_splitFirst_spec hsp
    have hcount : s.count '*' = a.count '*' + 1 + b.count '*' := by
      rw [hs]; simp [List.count_append]; omega
    have hb : b.count '*' = 0 := by omega
    exact lem_emph_noop2 hsp (lem_splitFirst_none_of_ne (lem_ne_of_count_zero hb))

theorem lem_bold_noop {s : Str} (h : s.count '*' ≤ 1) : boldPass s = s := by
  unfold boldPass
  rcases hsp : splitFirst ['*', '*'] s with _ | ⟨a, b⟩
  · exact lem_emph_noop1 hsp
  · have hs := lem_splitFirst_spec hsp
    have hcount : s.count '*' = a.count '*' + 2 + b.count '*' := by
      rw [hs]; simp [List.count_append]; omega
    omega

theorem lem_liRunF_none {f : Nat} {s : Str} (h : liIter s = Option.none) :
    liRunF f s = Option.none := by
  cases f with
  | zero => rfl
  | succ f => simp [liRunF, h]

theorem lem_liIter_none {s : Str}
    (h : (['<', 'l', 'i', '>'] : Str).isPrefixOf s = false) : liIter s = Option.none := by
  simp [liIter, h]

theorem lem_groupLiF_noop :
    ∀ (f : Nat) {s : Str}, noOcc ['<', 'l', 'i', '>'] s = true → groupLiF f s = s := by
  intro f
  induction f with
  | zero => intro s _; rfl
  | succ f ih =>
    intro s h
    cases s with
    | nil => rfl
    | cons c cs =>
      obtain ⟨h1, h2⟩ := lem_noOcc_cons h
      rw [show groupLiF (f + 1) (c :: cs)
          = c :: groupLiF f cs by
            simp [groupLiF, lem_liRunF_none (lem_liIter_none h1)]]
      rw [ih h2]

theorem lem_brTry_none {s : Str}
    (h : (['<', 'b', 'r', '>'] : Str).isPrefixOf s = false) : brTry s = Option.none := by
  simp [brTry, h]

theorem lem_collapseBrF_noop :
    ∀ (f : Nat) {s : Str}, noOcc ['<', 'b', 'r', '>'] s = true → collapseBrF f s = s := by
  intro f
  induction f with
  | zero => intro s _; rfl
  | succ f ih =>
    intro s h
    cases s with
    | nil => rfl
    | cons c cs =>
      obtain ⟨h1, h2⟩ := lem_noOcc_cons h
      rw [show collapseBrF (f + 1) (c :: cs)
          = c :: collapseBrF f cs by simp [collapseBrF, lem_brTry_none h1]]
      rw [ih h2]

theorem lem_collapseNLGo_noop :
    ∀ (prev : Bool) {s : Str}, (∀ c ∈ s, c ≠ '\n') → collapseNLGo prev s = s := by
  intro prev s
  induction s generalizing prev with
  | nil => intro _; rfl
  | cons c cs ih =>
    intro h
    have hc : (c == '\n') = false := by
      simp [h c (List.mem_cons_self c cs)]
    simp [collapseNLGo, hc, ih _ (fun d hd => h d (List.mem_cons_of_mem c hd))]

theorem lem_collapseNL_noop {s : Str} (h : ∀ c ∈ s, c ≠ '\n') : collapseNL s = s :=
  lem_collapseNLGo_noop false h

theorem lem_join_single (x : Str) : joinLines [x] = x := by
  simp [joinLines, List.intercalate]

theorem lem_splitLines_noNL : ∀ {s : Str}, (∀ c ∈ s, c ≠ '\n') → splitLines s = [s] := by
  intro s
  induction s with
  | nil => intro _; rfl
  | cons c cs ih =>
    intro h
    have hc : ¬ (c = '\n') := h c (List.mem_cons_self c cs)
    rw [show splitLines (c :: cs)
        = match splitLines cs with
          | l :: ls => (c :: l) :: ls
          | [] => [[c]] by simp [splitLines, hc]]
    rw [ih (fun d hd => h d (List.mem_cons_of_mem c hd))]

theorem lem_splitLines_cat {w r : Str} (hw : ∀ c ∈ w, c ≠ '\n') :
    splitLines (w ++ '\n' :: r) = w :: splitLines r := by
  induction w with
  | nil => simp [splitLines]
  | cons c cs ih =>
    have hc : ¬ (c = '\n') := hw c (List.mem_cons_self c cs)
    rw [List.cons_append]
    rw [show splitLines (c :: (cs ++ '\n' :: r))
        = match splitLines (cs ++ '\n' :: r) with
          | l :: ls => (c :: l) :: ls
          | [] => [[c]] by simp [splitLines, hc]]
    rw [ih (fun d hd => hw d (List.mem_cons_of_mem c hd))]

/-- Characters of ordinary prose: letters, digits, or a space.  Lines built
from these interact with none of the markup rewriting rules. -/
def plainChar (c : Char) : Bool := c.isAlphanum || c == ' '

theorem lem_plain_ne {c d : Char} (hc : plainChar c = true) (hd : plainChar d = false) :
    c ≠ d := by
  intro he
  rw [he] at hc
  rw [hc] at hd
  cases hd

theorem lem_noOcc_tagged {c2 : Char} {ps : Str} (h2h : c2 ≠ 'h') (h2s : c2 ≠ '/')
    {d : Char} (hd : d ≠ '<') {rest : Str} (hrest : ∀ c ∈ rest, c ≠ '<') :
    noOcc ('<' :: c2 :: ps) ('<' :: 'h' :: d :: '>' :: (rest ++ ['<', '/', 'h', d, '>']))
      = true := by
  have hstep : ∀ tail : Str,
      noOcc ('<' :: c2 :: ps) (rest ++ tail) = noOcc ('<' :: c2 :: ps) tail :=
    fun tail => lem_noOcc_skip hrest
  simp only [noOcc, hstep]
  simp [List.isPrefixOf, h2h, h2s, Ne.symm hd]

theorem lem_processLine_pass {t : Str}
    (hstrip : pyStrip t = t)
    (hne : t ≠ [])
    (hH : (['<', 'h'] : Str).isPrefixOf t = true)
    (hG : endsWithGT t = true) :
    processLine t = t := by
  simp [processLine, hstrip, hne, hH, hG]

theorem lem_convert_eval {text : Str} (hne : text ≠ []) (hNL : ∀ c ∈ text, c ≠ '\n') :
    convert_to_markup text
      = pyStrip (collapseNL (collapseBr (removeAll ['<', 'p', '>', '<', '/', 'p', '>']
          (groupLi (processLine (italicPass (boldPass (hrPass
            (h1Pass (h2Pass (h3Pass text))))))))))) := by
  unfold convert_to_markup
  rw [if_neg hne, lem_splitLines_noNL hNL, List.map_singleton, lem_join_single]

theorem lem_post_inert {t : Str}
    (hli : noOcc ['<', 'l', 'i', '>'] t = true)
    (hpp : noOcc ['<', 'p', '>', '<', '/', 'p', '>'] t = true)
    (hbr : noOcc ['<', 'b', 'r', '>'] t = true)
    (hnl : ∀ c ∈ t, c ≠ '\n')
    (hstrip : pyStrip t = t) :
    pyStrip (collapseNL (collapseBr (removeAll ['<', 'p', '>', '<', '/', 'p', '>']
      (groupLi t)))) = t := by
  rw [show groupLi t = t from lem_groupLiF_noop _ hli,
    lem_removeAll_noOcc hpp,
    show collapseBr t = t from lem_collapseBrF_noop _ hbr,
    lem_collapseNL_noop hnl, hstrip]

theorem lem_parse_eq (raw : Str) :
    process_with_judge_parse raw
      = if pyStrip (judgeScan raw).2.1 = [] ∧ pyStrip (judgeScan raw).2.2 = [] then
          { final_answer := pyStrip (pyStrip raw), reasoning := pyStrip (judgeScan raw).2.2 }
        else
          { final_answer := pyStrip (judgeScan raw).2.1
            reasoning := pyStrip (judgeScan raw).2.2 } := rfl

theorem lem_lower_space_ne {c d : Char} (h : c.isLower = true ∨ c = ' ')
    (hd : d.isLower = false) (hds : d ≠ ' ') : c ≠ d := by
  intro he
  subst he
  rcases h with h | h
  · rw [h] at hd; cases hd
  · exact hds h

/-- C1: the judge-response parsing follows the specified line scanner.  On
the spec test vector the parser returns Hello world / because X; a line
beginning with FINAL_ANSWER: (containing no further marker occurrence)
starts final-answer accumulation with the marker and whitespace stripped; a
line beginning with REASONING: does the same for the reasoning field; any
other line is appended with a separating space to the active field; and
lines before any marker leave the state unchanged (they are discarded). -/
theorem judge_parse_line_scanner :
    process_with_judge_parse ("FINAL_ANSWER: Hello\nworld\nREASONING: because X").data
        = { final_answer := ("Hello world").data, reasoning := ("because X").data }
    ∧ (∀ (st : Sect × Str × Str) (rest : Str), noOcc mFA rest = true →
        scanStep st (mFA ++ rest) = (Sect.fa, pyStrip rest, st.2.2))
    ∧ (∀ (st : Sect × Str × Str) (rest : Str), noOcc mRS rest = true →
        scanStep st (mRS ++ rest) = (Sect.rs, st.2.1, pyStrip rest))
    ∧ (∀ (st : Sect × Str × Str) (line : Str),
        mFA.isPrefixOf line = false → mRS.isPrefixOf line = false →
        (st.1 = Sect.none → scanStep st line = st)
        ∧ (st.1 = Sect.fa →
            scanStep st line = (Sect.fa, st.2.1 ++ ' ' :: pyStrip line, st.2.2))
        ∧ (st.1 = Sect.rs →
            scanStep st line = (Sect.rs, st.2.1, st.2.2 ++ ' ' :: pyStrip line))) := by
  refine ⟨by decide, ?_, ?_, ?_⟩
  · intro st rest h
    unfold scanStep
    rw [if_pos (lem_isPrefixOf_append_self mFA rest)]
    have hrm : removeAll mFA (mFA ++ rest) = rest := by
      unfold mFA at h ⊢
      rw [lem_removeAll_marker_start, lem_removeAll_noOcc h]
    rw [hrm]
  · intro st rest h
    have h1 : mFA.isPrefixOf (mRS ++ rest) = false := by
      unfold mFA mRS
      simp [List.isPrefixOf]
    unfold scanStep
    rw [if_neg (by simp [h1]), if_pos (lem_isPrefixOf_append_self mRS rest)]
    have hrm : removeAll mRS (mRS ++ rest) = rest := by
      unfold mRS at h ⊢
      rw [lem_removeAll_marker_start, lem_removeAll_noOcc h]
    rw [hrm]
  · intro st line h1 h2
    refine ⟨?_, ?_, ?_⟩ <;> intro hs <;>
      · unfold scanStep
        rw [if_neg (by simp [h1]), if_neg (by simp [h2]), hs]

/-- Witness for C1 at concrete inputs: a FINAL_ANSWER: line, a REASONING:
line, a stray line before any marker, and continuation lines in each
section. -/
theorem judge_parse_line_scanner_witness :
    scanStep (Sect.none, [], []) (mFA ++ (" hi").data) = (Sect.fa, ("hi").data, [])
    ∧ scanStep (Sect.fa, ("A").data, []) (mRS ++ (" why").data)
        = (Sect.rs, ("A").data, ("why").data)
    ∧ scanStep (Sect.none, [], []) (("stray").data) = (Sect.none, [], [])
    ∧ scanStep (Sect.fa, ("A").data, []) (("more").data)
        = (Sect.fa, ("A").data ++ ' ' :: ("more").data, [])
    ∧ scanStep (Sect.rs, ("A").data, ("B").data) (("more").data)
        = (Sect.rs, ("A").data, ("B").data ++ ' ' :: ("more").data) := by
  refine ⟨?_, ?_, ?_, ?_, ?_⟩
  · exact (judge_parse_line_scanner.2.1 _ _ (by decide)).trans (by decide)
  · exact (judge_parse_line_scanner.2.2.1 _ _ (by decide)).trans (by decide)
  · exact (judge_parse_line_scanner.2.2.2 _ _ (by decide) (by decide)).1 rfl
  · exact ((judge_parse_line_scanner.2.2.2 _ _ (by decide) (by decide)).2.1 rfl).trans
      (by decide)
  · exact ((judge_parse_line_scanner.2.2.2 _ _ (by decide) (by decide)).2.2 rfl).trans
      (by decide)

/-- C2 counterexample: on the non-empty raw judge text REASONING: because X
the parser returns an empty final answer (the reasoning field is non-empty,
so the fallback does not trigger), contradicting that the returned final
answer is non-empty whenever the judge produced any non-empty text. -/
theorem judge_parse_fallback_cex :
    process_with_judge_parse ("REASONING: because X").data
        = { final_answer := [], reasoning := ("because X").data }
    ∧ ("REASONING: because X").data ≠ ([] : Str) := by
  exact ⟨by decide, by decide⟩

/-- C2 amended: if after the scan both fields are empty up to whitespace,
the parser returns the whole raw text, trimmed, as the final answer with
empty reasoning (and the parser is a total function, so no parse error is
possible); moreover, whenever the raw judge text contains any
non-whitespace character, at least one of the two returned fields is
non-empty — but the final answer alone may be empty. -/
theorem judge_parse_fallback_amended (raw : Str) :
    (pyStrip (judgeScan raw).2.1 = [] → pyStrip (judgeScan raw).2.2 = [] →
      process_with_judge_parse raw = { final_answer := pyStrip raw, reasoning := [] })
    ∧ ((∃ c ∈ raw, isPySpace c = false) →
      ¬((process_with_judge_parse raw).final_answer = []
        ∧ (process_with_judge_parse raw).reasoning = [])) := by
  constructor
  · intro h1 h2
    rw [lem_parse_eq, if_pos ⟨h1, h2⟩, lem_strip_idem, h2]
  · rintro ⟨c, hc, hcws⟩ ⟨hfa, hrs⟩
    by_cases hfb : pyStrip (judgeScan raw).2.1 = [] ∧ pyStrip (judgeScan raw).2.2 = []
    · rw [lem_parse_eq, if_pos hfb] at hfa
      simp only at hfa
      rw [lem_strip_idem] at hfa
      have := lem_strip_nil.mp hfa c hc
      rw [this] at hcws
      cases hcws
    · rw [lem_parse_eq, if_neg hfb] at hfa hrs
      simp only at hfa hrs
      exact hfb ⟨hfa, hrs⟩

/-- Witness for C2 amended at the marker-free input of the spec test
vector: the fallback returns the trimmed text, and the result is not
completely empty. -/
theorem judge_parse_fallback_amended_witness :
    process_with_judge_parse ("Just a plain answer.").data
        = { final_answer := ("Just a plain answer.").data, reasoning := [] }
    ∧ ¬((process_with_judge_parse (("Just a plain answer.").data)).final_answer = []
        ∧ (process_with_judge_parse (("Just a plain answer.").data)).reasoning = []) := by
  constructor
  · exact ((judge_parse_fallback_amended (("Just a plain answer.").data)).1
      (by decide) (by decide)).trans (by decide)
  · exact (judge_parse_fallback_amended (("Just a plain answer.").data)).2
      ⟨'J', by decide, by decide⟩

/-- C9: on a FINAL_ANSWER: line whose content itself contains the marker
text again, str.replace removes every occurrence, not only the leading one:
for lower-case-and-space content s and t, the line
FINAL_ANSWER: s FINAL_ANSWER: t parses with both marker occurrences deleted
from the stored final answer. -/
theorem judge_marker_replace_all (s t : Str)
    (hs : ∀ c ∈ s, c.isLower = true ∨ c = ' ')
    (ht : ∀ c ∈ t, c.isLower = true ∨ c = ' ')
    (hne : pyStrip (' ' :: (s ++ t)) ≠ []) :
    process_with_judge_parse (mFA ++ ' ' :: (s ++ (mFA ++ t)))
      = { final_answer := pyStrip (' ' :: (s ++ t)), reasoning := [] } := by
  have hsF : ∀ c ∈ (' ' :: s), c ≠ 'F' := by
    intro c hc
    rcases List.mem_cons.mp hc with h | h
    · subst h; decide
    · exact lem_lower_space_ne (hs c h) (by decide) (by decide)
  have htF : ∀ c ∈ t, c ≠ 'F' :=
    fun c hc => lem_lower_space_ne (ht c hc) (by decide) (by decide)
  have hnl : ∀ c ∈ (mFA ++ ' ' :: (s ++ (mFA ++ t))), c ≠ '\n' := by
    intro c hc
    simp only [List.mem_append, List.mem_cons] at hc
    have hm : ∀ c ∈ mFA, c ≠ '\n' := by decide
    rcases hc with h | h | h
    · exact hm c h
    · subst h; decide
    · rcases h with h | h
      · exact lem_lower_space_ne (hs c h) (by decide) (by decide)
      · rcases h with h | h
        · exact hm c h
        · exact lem_lower_space_ne (ht c h) (by decide) (by decide)
  have hrm : removeAll mFA (mFA ++ ' ' :: (s ++ (mFA ++ t))) = ' ' :: (s ++ t) := by
    unfold mFA at hsF htF ⊢
    rw [lem_removeAll_marker_start]
    rw [show (' ' :: (s ++
        (['F', 'I', 'N', 'A', 'L', '_', 'A', 'N', 'S', 'W', 'E', 'R', ':'] ++ t)))
        = (' ' :: s) ++
          (['F', 'I', 'N', 'A', 'L', '_', 'A', 'N', 'S', 'W', 'E', 'R', ':'] ++ t) by
      simp]
    rw [lem_removeAll_skip hsF, lem_removeAll_marker_start,
      lem_removeAll_noOcc (lem_noOcc_of_ne htF)]
    simp
  have hscan : judgeScan (mFA ++ ' ' :: (s ++ (mFA ++ t)))
      = (Sect.fa, pyStrip (' ' :: (s ++ t)), []) := by
    unfold judgeScan
    rw [lem_splitLines_noNL hnl]
    simp only [List.foldl_cons, List.foldl_nil]
    unfold scanStep
    rw [if_pos (lem_isPrefixOf_append_self mFA _), hrm]
  rw [lem_parse_eq, hscan]
  simp only
  rw [if_neg (by
    rintro ⟨h, _⟩
    rw [lem_strip_idem] at h
    exact hne h)]
  rw [lem_strip_idem]
  rfl

/-- Witness for C9: FINAL_ANSWER: helloFINAL_ANSWER: world parses to the
final answer hello world, with the interior marker occurrence deleted. -/
theorem judge_marker_replace_all_witness :
    process_with_judge_parse (mFA ++ ' ' :: (("hello").data ++ (mFA ++ (" world").data)))
      = { final_answer := ("hello world").data, reasoning := [] } := by
  exact (judge_marker_replace_all (("hello").data) ((" world").data)
    (by decide) (by decide) (by decide)).trans (by decide)

theorem lem_findSome_mem {α β : Type} {l : List α} {f : α → Option β} {i : α} {e : β}
    (hi : i ∈ l) (hf : f i = some e) : ∃ v, l.findSome? f = some v := by
  induction l with
  | nil => cases hi
  | cons a as ih =>
    cases hfa : f a with
    | some v => exact ⟨v, by simp [List.findSome?_cons, hfa]⟩
    | none =>
      rcases List.mem_cons.mp hi with h | h
      · subst h; rw [hfa] at hf; cases hf
      · obtain ⟨v, hv⟩ := ih h
        exact ⟨v, by simp [List.findSome?_cons, hfa, hv]⟩

theorem lem_findSome_unique {α β : Type} {l : List α} {f : α → Option β} {i : α} {e : β}
    (hi : i ∈ l) (hothers : ∀ j ∈ l, j ≠ i → f j = none) (hf : f i = some e) :
    l.findSome? f = some e := by
  induction l with
  | nil => cases hi
  | cons a as ih =>
    by_cases ha : a = i
    · subst ha; simp [List.findSome?_cons, hf]
    · have hfa : f a = none := hothers a (List.mem_cons_self a as) ha
      rw [show (a :: as).findSome? f = as.findSome? f by simp [List.findSome?_cons, hfa]]
      have hias : i ∈ as := by
        rcases List.mem_cons.mp hi with h | h
        · exact absurd h.symm ha
        · exact h
      exact ih hias (fun j hj hne => hothers j (List.mem_cons_of_mem a hj) hne)

theorem lem_gather_ok {order : List (Fin 3)} {t : Fin 3 → Except Str Str} {r0 r1 r2 : Str}
    (hperm : order.Perm order3)
    (h0 : t 0 = Except.ok r0) (h1 : t 1 = Except.ok r1) (h2 : t 2 = Except.ok r2) :
    gatherThree order t = Except.ok (r0, r1, r2) := by
  have hnone : order.findSome? (fun i => errOf (t i)) = Option.none := by
    apply List.findSome?_eq_none_iff.mpr
    intro i hi
    have hmem : i ∈ order3 := hperm.mem_iff.mp hi
    have h012 : i = 0 ∨ i = 1 ∨ i = 2 := by simpa [order3] using hmem
    rcases h012 with h | h | h
    · subst h; rw [h0]; rfl
    · subst h; rw [h1]; rfl
    · subst h; rw [h2]; rfl
  simp [gatherThree, hnone, h0, h1, h2]

/-- C4: when all three backend calls succeed, the fan-out maps each label to
the text returned by that label's call, independently of the completion
order of the three concurrent calls (any permutation of the task indices),
and the /ask pipeline returns the deterministic label mapping, included in
the output only when the configuration flag is set. -/
theorem fan_out_label_mapping (order : List (Fin 3)) (t : Fin 3 → Except Str Str)
    (oracle : Str → Str) (names : Fin 3 → Str) (question : Str) (showFlag : Bool)
    (r0 r1 r2 : Str)
    (hperm : order.Perm order3)
    (h0 : t 0 = Except.ok r0) (h1 : t 1 = Except.ok r1) (h2 : t 2 = Except.ok r2) :
    gatherThree order t = Except.ok (r0, r1, r2)
    ∧ ask_question question order t oracle names showFlag
        = Except.ok
            { input := question
              models := if showFlag then some ⟨r0, r1, r2⟩ else Option.none
              judge := process_with_judge oracle question names ⟨r0, r1, r2⟩ } := by
  have hg := lem_gather_ok hperm h0 h1 h2
  exact ⟨hg, by simp [ask_question, hg]⟩

/-- Witness for C4: a completion order different from the label order still
yields the label-correct mapping. -/
theorem fan_out_label_mapping_witness :
    gatherThree [2, 0, 1] (fun i => Except.ok [Char.ofNat (97 + i.val)])
        = Except.ok (['a'], ['b'], ['c'])
    ∧ ask_question [] [2, 0, 1] (fun i => Except.ok [Char.ofNat (97 + i.val)])
        (fun _ => []) (fun _ => []) true
        = Except.ok
            { input := []
              models := if true then some ⟨['a'], ['b'], ['c']⟩ else Option.none
              judge := process_with_judge (fun _ => []) [] (fun _ => [])
                  ⟨['a'], ['b'], ['c']⟩ } :=
  fan_out_label_mapping [2, 0, 1] (fun i => Except.ok [Char.ofNat (97 + i.val)])
    (fun _ => []) (fun _ => []) [] true ['a'] ['b'] ['c']
    (by decide) rfl rfl rfl

/-- C5: if one of the three backend calls fails, the fan-out fails as a
whole: some originating error propagates out of gather and out of the /ask
pipeline for every judge backend, so no partial mapping is observable and
the judge is never consulted; when the other two calls succeed, the
surfaced error is exactly the failing call's error. -/
theorem fan_out_all_or_nothing (order : List (Fin 3)) (t : Fin 3 → Except Str Str)
    (i : Fin 3) (e : Str)
    (hperm : order.Perm order3) (hi : t i = Except.error e) :
    (∃ f, gatherThree order t = Except.error f
      ∧ ∀ (oracle : Str → Str) (names : Fin 3 → Str) (question : Str) (showFlag : Bool),
          ask_question question order t oracle names showFlag = Except.error f)
    ∧ ((∀ j, j ≠ i → errOf (t j) = Option.none) →
        gatherThree order t = Except.error e) := by
  have hall : ∀ j : Fin 3, j ∈ order3 := by decide
  have himem : i ∈ order := hperm.mem_iff.mpr (hall i)
  have herr : errOf (t i) = some e := by rw [hi]; rfl
  constructor
  · obtain ⟨v, hv⟩ :=
      @lem_findSome_mem (Fin 3) Str order (fun j => errOf (t j)) i e himem herr
    have hg : gatherThree order t = Except.error v := by simp [gatherThree, hv]
    exact ⟨v, hg, fun oracle names question flag => by simp [ask_question, hg]⟩
  · intro hothers
    have hfind : order.findSome? (fun j => errOf (t j)) = some e :=
      @lem_findSome_unique (Fin 3) Str order (fun j => errOf (t j)) i e himem
        (fun j _ hne => hothers j hne) herr
    simp [gatherThree, hfind]

/-- Witness for C5: completion order MODEL1, MODEL2, MODEL3 with the second
call failing. -/
theorem fan_out_all_or_nothing_witness :
    (∃ f, gatherThree order3 (fun j => if j = 1 then Except.error ['e'] else Except.ok ['a'])
        = Except.error f
      ∧ ∀ (oracle : Str → Str) (names : Fin 3 → Str) (question : Str) (showFlag : Bool),
          ask_question question order3
              (fun j => if j = 1 then Except.error ['e'] else Except.ok ['a'])
              oracle names showFlag
            = Except.error f)
    ∧ gatherThree order3 (fun j => if j = 1 then Except.error ['e'] else Except.ok ['a'])
        = Except.error ['e'] := by
  have h := fan_out_all_or_nothing order3
    (fun j => if j = 1 then Except.error ['e'] else Except.ok ['a'])
    1 ['e'] (by decide) (by simp)
  exact ⟨h.1, h.2 (by decide)⟩

/-- C3 counterexample: with a judge backend answering
FINAL_ANSWER: # Title for every prompt and three successful backend calls,
the web endpoint returns the judge final answer verbatim, which differs
from its Markup Normalizer image, so the endpoint does not return the
normalized text. -/
theorem web_response_not_normalized_cex :
    web_ask_question [] order3 (fun _ => Except.ok ['r'])
        (fun _ => ("FINAL_ANSWER: # Title").data) (fun _ => [])
      = Except.ok (("# Title").data)
    ∧ convert_to_markup (("# Title").data) = ("<h1>Title</h1>").data
    ∧ ("# Title").data ≠ ("<h1>Title</h1>").data := by
  refine ⟨rfl, by decide, by decide⟩

/-- C3 amended: on the web-facing path with all three backend calls
succeeding, the text returned to the caller is the judge final-answer field
itself, taken verbatim from the judge synthesizer; convert_to_markup is not
applied to it on this path. -/
theorem web_response_raw_final_answer (order : List (Fin 3)) (t : Fin 3 → Except Str Str)
    (oracle : Str → Str) (names : Fin 3 → Str) (question : Str) (r0 r1 r2 : Str)
    (hperm : order.Perm order3)
    (h0 : t 0 = Except.ok r0) (h1 : t 1 = Except.ok r1) (h2 : t 2 = Except.ok r2) :
    web_ask_question question order t oracle names
      = Except.ok (process_with_judge oracle question names ⟨r0, r1, r2⟩).final_answer := by
  have hg := lem_gather_ok hperm h0 h1 h2
  simp [web_ask_question, hg]

/-- Witness for C3 amended at a concrete scrambled completion order. -/
theorem web_response_raw_final_answer_witness :
    web_ask_question [] [1, 2, 0] (fun _ => Except.ok ['r'])
        (fun _ => ("FINAL_ANSWER: ok").data) (fun _ => [])
      = Except.ok (process_with_judge (fun _ => ("FINAL_ANSWER: ok").data) []
          (fun _ => []) ⟨['r'], ['r'], ['r']⟩).final_answer :=
  web_response_raw_final_answer [1, 2, 0] (fun _ => Except.ok ['r'])
    (fun _ => ("FINAL_ANSWER: ok").data) (fun _ => []) [] ['r'] ['r'] ['r']
    (by decide) rfl rfl rfl

/-- C7 counterexample: three blank lines between two text lines leave two
break markers, not one: the single left-to-right pass of step 7b replaces
the first pair and does not rescan its replacement. -/
theorem markup_break_collapse_cex :
    convert_to_markup ("a\n\n\n\nb").data = ("<p>a</p>\n<br>\n<br>\n<p>b</p>").data
    ∧ ("<p>a</p>\n<br>\n<br>\n<p>b</p>").data ≠ ("<p>a</p>\n<br>\n<p>b</p>").data := by
  exact ⟨by decide, by decide⟩

/-- C7 amended: the duplicate-break cleanup is a single left-to-right pass
over non-overlapping matches, so a run of exactly two break markers (two
blank lines) collapses to one, while a run of n collapses to about half:
three and four blank lines both leave two break markers. -/
theorem markup_break_collapse_amended :
    convert_to_markup ("a\n\n\nb").data = ("<p>a</p>\n<br>\n<p>b</p>").data
    ∧ convert_to_markup ("a\n\n\n\nb").data = ("<p>a</p>\n<br>\n<br>\n<p>b</p>").data
    ∧ convert_to_markup ("a\n\n\n\n\nb").data
        = ("<p>a</p>\n<br>\n<br>\n<p>b</p>").data := by
  exact ⟨by decide, by decide, by decide⟩

/-- C6 counterexample: a line of three asterisks is not converted to a
horizontal rule; the emphasis pass consumes a star pair and the line is
wrapped as a paragraph, with no rule element anywhere in the output. -/
theorem markup_asterisk_rule_cex :
    convert_to_markup ("***").data = ("<p><em></em>*</p>").data
    ∧ noOcc (("<hr>").data) (("<p><em></em>*</p>").data) = true := by
  exact ⟨by decide, by decide⟩

theorem lem_bool_ne {f : Char → Bool} {c d : Char} (hc : f c = true) (hd : f d = false) :
    c ≠ d := by
  intro he
  rw [he] at hc
  rw [hc] at hd
  cases hd

theorem lem_ws_noPref {p : Char} {ps : Str} (hp : isPySpace p = false) {w : Str}
    (hw : ∀ c ∈ w, isPySpace c = true) : (p :: ps).isPrefixOf w = false := by
  cases w with
  | nil => simp [List.isPrefixOf]
  | cons c cs =>
    have hne : p ≠ c := (lem_bool_ne (hw c (List.mem_cons_self c cs)) hp).symm
    simp [List.isPrefixOf, hne]

theorem lem_processLine_congr {x y : Str} (h : pyStrip x = pyStrip y) :
    processLine x = processLine y := by
  simp only [processLine, h]

/-- A line of whitespace only passes untouched through the per-line rewrite
passes and is classified as a break. -/
theorem lem_wsline_inert {w : Str} (hw : ∀ c ∈ w, isPySpace c = true) :
    processLine (italicPass (boldPass (hrPass (h1Pass (h2Pass (h3Pass w))))))
      = ("<br>").data := by
  have hstar : w.count '*' = 0 :=
    lem_count_ne (fun c hc => lem_bool_ne (hw c hc) (by decide))
  have h3 : h3Pass w = w := by
    simp [h3Pass,
      @lem_ws_noPref '#' ['#', '#'] (show isPySpace '#' = false by decide) w hw]
  have h2 : h2Pass w = w := by
    simp [h2Pass,
      @lem_ws_noPref '#' ['#'] (show isPySpace '#' = false by decide) w hw]
  have h1 : h1Pass w = w := by
    simp [h1Pass,
      @lem_ws_noPref '#' [] (show isPySpace '#' = false by decide) w hw]
  have hhr : hrPass w = w := by
    simp [hrPass,
      @lem_ws_noPref '-' ['-', '-'] (show isPySpace '-' = false by decide) w hw]
  rw [h3, h2, h1, hhr, lem_bold_noop (by simp [hstar]), lem_italic_noop (by simp [hstar])]
  simp [processLine, lem_strip_nil.mpr hw]

theorem lem_dropWhile_repl :
    ∀ k : Nat, List.dropWhile (fun c => c == '-') (List.replicate k '-') = [] := by
  intro k
  induction k with
  | zero => rfl
  | succ k ih => simp [List.replicate_succ, List.dropWhile_cons, ih]

/-- The already-converted heading line with level digit d and plain content. -/
def hTag (d : Char) (rest : Str) : Str :=
  '<' :: 'h' :: d :: '>' :: (rest ++ ['<', '/', 'h', d, '>'])

theorem lem_hTag_mem {d : Char} {rest : Str} {c : Char} (hc : c ∈ hTag d rest) :
    c = '<' ∨ c = 'h' ∨ c = d ∨ c = '>' ∨ c = '/' ∨ c ∈ rest := by
  simp only [hTag, List.mem_cons, List.mem_append] at hc
  tauto

/-- The per-line passes and the line classifier leave an already-converted
heading line with plain content unchanged, and the post-processing stages do
not touch it either. -/
theorem lem_tagged_pipeline {d : Char} {rest : Str}
    (hd1 : d ≠ '<') (hd2 : d ≠ '*') (hd3 : d ≠ '\n')
    (hplain : ∀ c ∈ rest, plainChar c = true) :
    pyStrip (collapseNL (collapseBr (removeAll ['<', 'p', '>', '<', '/', 'p', '>']
      (groupLi (processLine (italicPass (boldPass (hrPass (hTag d rest)))))))))
      = hTag d rest := by
  have hlt : ∀ c ∈ rest, c ≠ '<' := fun c hc => lem_plain_ne (hplain c hc) (by decide)
  have hnr : ∀ c ∈ rest, c ≠ '\n' := fun c hc => lem_plain_ne (hplain c hc) (by decide)
  have hnl : ∀ c ∈ hTag d rest, c ≠ '\n' := by
    intro c hc
    rcases lem_hTag_mem hc with rfl | rfl | rfl | rfl | rfl | h
    · decide
    · decide
    · exact hd3
    · decide
    · decide
    · exact hnr c h
  have hstar : (hTag d rest).count '*' = 0 := by
    apply lem_count_ne
    intro c hc
    rcases lem_hTag_mem hc with rfl | rfl | rfl | rfl | rfl | h
    · decide
    · decide
    · exact hd2
    · decide
    · decide
    · exact lem_plain_ne (hplain c h) (by decide)
  have hhr : hrPass (hTag d rest) = hTag d rest := by simp [hrPass, hTag, List.isPrefixOf]
  have hTL : (hTag d rest).dropWhile isPySpace = hTag d rest := by
    unfold hTag
    rw [List.dropWhile_cons_of_neg (by decide)]
  have hTR : (hTag d rest).reverse.dropWhile isPySpace = (hTag d rest).reverse := by
    rw [show (hTag d rest).reverse
        = '>' :: d :: 'h' :: '/' :: '<' :: (rest.reverse ++ ['>', d, 'h', '<']) by
      simp [hTag]]
    rw [List.dropWhile_cons_of_neg (by decide)]
  have hstrip : pyStrip (hTag d rest) = hTag d rest := lem_strip_eq hTL hTR
  have hne : hTag d rest ≠ [] := by simp [hTag]
  have hH : (['<', 'h'] : Str).isPrefixOf (hTag d rest) = true := by
    simp [hTag, List.isPrefixOf]
  have hG : endsWithGT (hTag d rest) = true := by
    unfold endsWithGT
    rw [show (hTag d rest).reverse
        = '>' :: d :: 'h' :: '/' :: '<' :: (rest.reverse ++ ['>', d, 'h', '<']) by
      simp [hTag]]
    simp [List.isPrefixOf]
  have hli : noOcc ['<', 'l', 'i', '>'] (hTag d rest) = true := by
    unfold hTag
    exact lem_noOcc_tagged (by decide) (by decide) hd1 hlt
  have hpp : noOcc ['<', 'p', '>', '<', '/', 'p', '>'] (hTag d rest) = true := by
    unfold hTag
    exact lem_noOcc_tagged (by decide) (by decide) hd1 hlt
  have hbr : noOcc ['<', 'b', 'r', '>'] (hTag d rest) = true := by
    unfold hTag
    exact lem_noOcc_tagged (by decide) (by decide) hd1 hlt
  rw [hhr, lem_bold_noop (by simp [hstar]), lem_italic_noop (by simp [hstar]),
    lem_processLine_pass hstrip hne hH hG]
  exact lem_post_inert hli hpp hbr hnl hstrip

/-- C6 amended: a line of three or more dashes converts to a horizontal-rule
element, and lines starting with #, ##, ### (with plain prose content)
convert to heading elements of the matching level; but asterisk runs are not
rule lines — step 2 matches dashes only, and an asterisk-run line is instead
handled by the emphasis pass and wrapped as a paragraph (see the
counterexample). -/
theorem markup_heading_and_dash_rule :
    (∀ n : Nat, convert_to_markup (List.replicate (n + 3) '-') = ['<', 'h', 'r', '>'])
    ∧ (∀ rest : Str, (∀ c ∈ rest, plainChar c = true) →
        rest.dropWhile isPySpace = rest →
        convert_to_markup ('#' :: ' ' :: rest) = hTag '1' rest)
    ∧ (∀ rest : Str, (∀ c ∈ rest, plainChar c = true) →
        rest.dropWhile isPySpace = rest →
        convert_to_markup ('#' :: '#' :: ' ' :: rest) = hTag '2' rest)
    ∧ (∀ rest : Str, (∀ c ∈ rest, plainChar c = true) →
        rest.dropWhile isPySpace = rest →
        convert_to_markup ('#' :: '#' :: '#' :: ' ' :: rest) = hTag '3' rest) := by
  have hplain_nl : ∀ {rest : Str}, (∀ c ∈ rest, plainChar c = true) →
      ∀ c ∈ rest, c ≠ '\n' :=
    fun hp c hc => lem_plain_ne (hp c hc) (by decide)
  refine ⟨?_, ?_, ?_, ?_⟩
  · intro n
    have hrep : List.replicate (n + 3) '-' = '-' :: '-' :: '-' :: List.replicate n '-' := rfl
    have hne : List.replicate (n + 3) '-' ≠ [] := by rw [hrep]; simp
    have hnl : ∀ c ∈ List.replicate (n + 3) '-', c ≠ '\n' := by
      intro c hc
      rw [List.eq_of_mem_replicate hc]
      decide
    rw [lem_convert_eval hne hnl, hrep]
    have h3 : h3Pass ('-' :: '-' :: '-' :: List.replicate n '-')
        = '-' :: '-' :: '-' :: List.replicate n '-' := by
      simp [h3Pass, List.isPrefixOf]
    have h2 : h2Pass ('-' :: '-' :: '-' :: List.replicate n '-')
        = '-' :: '-' :: '-' :: List.replicate n '-' := by
      simp [h2Pass, List.isPrefixOf]
    have h1 : h1Pass ('-' :: '-' :: '-' :: List.replicate n '-')
        = '-' :: '-' :: '-' :: List.replicate n '-' := by
      simp [h1Pass, List.isPrefixOf]
    have hhr : hrPass ('-' :: '-' :: '-' :: List.replicate n '-') = ['<', 'h', 'r', '>'] := by
      simp [hrPass, List.isPrefixOf, List.dropWhile_cons, lem_dropWhile_repl]
    rw [h3, h2, h1, hhr]
    decide
  · intro rest hplain hsr
    have hne : ('#' :: ' ' :: rest) ≠ [] := by simp
    have hnl : ∀ c ∈ ('#' :: ' ' :: rest), c ≠ '\n' := by
      intro c hc
      rcases List.mem_cons.mp hc with rfl | hc
      · decide
      rcases List.mem_cons.mp hc with rfl | hc
      · decide
      · exact hplain_nl hplain c hc
    rw [lem_convert_eval hne hnl]
    have h3 : h3Pass ('#' :: ' ' :: rest) = '#' :: ' ' :: rest := by
      simp [h3Pass, List.isPrefixOf]
    have h2 : h2Pass ('#' :: ' ' :: rest) = '#' :: ' ' :: rest := by
      simp [h2Pass, List.isPrefixOf]
    have h1 : h1Pass ('#' :: ' ' :: rest) = hTag '1' rest := by
      rw [show h1Pass ('#' :: ' ' :: rest)
          = ['<', 'h', '1', '>'] ++ (' ' :: rest).dropWhile isPySpace
            ++ ['<', '/', 'h', '1', '>'] by simp [h1Pass, List.isPrefixOf]]
      rw [List.dropWhile_cons_of_pos (by decide), hsr]
      simp [hTag]
    rw [h3, h2, h1]
    exact lem_tagged_pipeline (by decide) (by decide) (by decide) hplain
  · intro rest hplain hsr
    have hne : ('#' :: '#' :: ' ' :: rest) ≠ [] := by simp
    have hnl : ∀ c ∈ ('#' :: '#' :: ' ' :: rest), c ≠ '\n' := by
      intro c hc
      rcases List.mem_cons.mp hc with rfl | hc
      · decide
      rcases List.mem_cons.mp hc with rfl | hc
      · decide
      rcases List.mem_cons.mp hc with rfl | hc
      · decide
      · exact hplain_nl hplain c hc
    rw [lem_convert_eval hne hnl]
    have h3 : h3Pass ('#' :: '#' :: ' ' :: rest) = '#' :: '#' :: ' ' :: rest := by
      simp [h3Pass, List.isPrefixOf]
    have h2 : h2Pass ('#' :: '#' :: ' ' :: rest) = hTag '2' rest := by
      rw [show h2Pass ('#' :: '#' :: ' ' :: rest)
          = ['<', 'h', '2', '>'] ++ (' ' :: rest).dropWhile isPySpace
            ++ ['<', '/', 'h', '2', '>'] by simp [h2Pass, List.isPrefixOf]]
      rw [List.dropWhile_cons_of_pos (by decide), hsr]
      simp [hTag]
    have h1 : h1Pass (hTag '2' rest) = hTag '2' rest := by
      simp [h1Pass, hTag, List.isPrefixOf]
    rw [h3, h2, h1]
    exact lem_tagged_pipeline (by decide) (by decide) (by decide) hplain
  · intro rest hplain hsr
    have hne : ('#' :: '#' :: '#' :: ' ' :: rest) ≠ [] := by simp
    have hnl : ∀ c ∈ ('#' :: '#' :: '#' :: ' ' :: rest), c ≠ '\n' := by
      intro c hc
      rcases List.mem_cons.mp hc with rfl | hc
      · decide
      rcases List.mem_cons.mp hc with rfl | hc
      · decide
      rcases List.mem_cons.mp hc with rfl | hc
      · decide
      rcases List.mem_cons.mp hc with rfl | hc
      · decide
      · exact hplain_nl hplain c hc
    rw [lem_convert_eval hne hnl]
    have h3 : h3Pass ('#' :: '#' :: '#' :: ' ' :: rest) = hTag '3' rest := by
      rw [show h3Pass ('#' :: '#' :: '#' :: ' ' :: rest)
          = ['<', 'h', '3', '>'] ++ (' ' :: rest).dropWhile isPySpace
            ++ ['<', '/', 'h', '3', '>'] by simp [h3Pass, List.isPrefixOf]]
      rw [List.dropWhile_cons_of_pos (by decide), hsr]
      simp [hTag]
    have h2 : h2Pass (hTag '3' rest) = hTag '3' rest := by
      simp [h2Pass, hTag, List.isPrefixOf]
    have h1 : h1Pass (hTag '3' rest) = hTag '3' rest := by
      simp [h1Pass, hTag, List.isPrefixOf]
    rw [h3, h2, h1]
    exact lem_tagged_pipeline (by decide) (by decide) (by decide) hplain

/-- Witness for C6 amended: a four-dash line becomes a rule; # Title becomes
a level-one heading. -/
theorem markup_heading_and_dash_rule_witness :
    convert_to_markup (List.replicate 4 '-') = ['<', 'h', 'r', '>']
    ∧ convert_to_markup (("# Title").data) = ("<h1>Title</h1>").data := by
  constructor
  · exact markup_heading_and_dash_rule.1 1
  · rw [show ("# Title").data = '#' :: ' ' :: ("Title").data by decide]
    exact (markup_heading_and_dash_rule.2.1 (("Title").data) (by decide)
      (by decide)).trans (by decide)

/-- C8: re-running the normalizer does not corrupt already-converted
heading or rule lines: a line that is already stripped, starts with the
heading tag opener and ends with a closing angle (and, as in any normalizer
output, carries at most one unpaired star, no embedded newline and no
list-item, empty-paragraph or break substring) is passed through unchanged,
and a horizontal-rule line is passed through unchanged. -/
theorem markup_passthrough (l : Str)
    (hTL : l.dropWhile isPySpace = l)
    (hTR : l.reverse.dropWhile isPySpace = l.reverse)
    (hH : (['<', 'h'] : Str).isPrefixOf l = true)
    (hG : endsWithGT l = true)
    (hstar : l.count '*' ≤ 1)
    (hNL : ∀ c ∈ l, c ≠ '\n')
    (hli : noOcc ['<', 'l', 'i', '>'] l = true)
    (hpp : noOcc ['<', 'p', '>', '<', '/', 'p', '>'] l = true)
    (hbr : noOcc ['<', 'b', 'r', '>'] l = true) :
    convert_to_markup l = l
    ∧ convert_to_markup ['<', 'h', 'r', '>'] = ['<', 'h', 'r', '>'] := by
  refine ⟨?_, by decide⟩
  obtain ⟨u, hu⟩ := List.isPrefixOf_iff_prefix.mp hH
  have hl : l = '<' :: 'h' :: u := by rw [← hu]; rfl
  have hne : l ≠ [] := by rw [hl]; simp
  rw [lem_convert_eval hne hNL]
  have h3 : h3Pass l = l := by rw [hl]; simp [h3Pass, List.isPrefixOf]
  have h2 : h2Pass l = l := by rw [hl]; simp [h2Pass, List.isPrefixOf]
  have h1 : h1Pass l = l := by rw [hl]; simp [h1Pass, List.isPrefixOf]
  have hhr : hrPass l = l := by rw [hl]; simp [hrPass, List.isPrefixOf]
  have hstripl : pyStrip l = l := lem_strip_eq hTL hTR
  rw [h3, h2, h1, hhr, lem_bold_noop hstar, lem_italic_noop hstar,
    lem_processLine_pass hstripl hne hH hG]
  exact lem_post_inert hli hpp hbr hNL hstripl

/-- Witness for C8 at the already-converted heading of the spec test
vector. -/
theorem markup_passthrough_witness :
    convert_to_markup (("<h1>Title</h1>").data) = ("<h1>Title</h1>").data
    ∧ convert_to_markup ['<', 'h', 'r', '>'] = ['<', 'h', 'r', '>'] :=
  markup_passthrough (("<h1>Title</h1>").data) (by decide) (by decide) (by decide)
    (by decide) (by decide) (by decide) (by decide) (by decide) (by decide)

theorem lem_noPref_head {p c : Char} {ps cs : Str} (h : p ≠ c) :
    (p :: ps).isPrefixOf (c :: cs) = false := by
  simp [List.isPrefixOf, h]

/-- C10: the line classifier strips each line before classifying it: a
whitespace-only line inside a text is equivalent to an empty line and both
become a break marker; a whitespace-only input line becomes a single break
marker; and leading indentation before a plain line never changes the
conversion result, so it is never preserved inside the produced elements. -/
theorem markup_line_strip_classify :
    (∀ w : Str, (∀ c ∈ w, c = ' ' ∨ c = '\t') →
        convert_to_markup ('a' :: '\n' :: (w ++ '\n' :: ['b']))
          = ("<p>a</p>\n<br>\n<p>b</p>").data)
    ∧ (∀ ind s : Str, (∀ c ∈ ind, c = ' ' ∨ c = '\t') →
        (∀ c ∈ s, plainChar c = true) → s ≠ [] →
        convert_to_markup (ind ++ s) = convert_to_markup s)
    ∧ (∀ w : Str, (∀ c ∈ w, c = ' ' ∨ c = '\t') → w ≠ [] →
        convert_to_markup w = ("<br>").data) := by
  have hwsp : ∀ {w : Str}, (∀ c ∈ w, c = ' ' ∨ c = '\t') →
      ∀ c ∈ w, isPySpace c = true := by
    intro w h c hc
    rcases h c hc with rfl | rfl <;> decide
  have hwnl : ∀ {w : Str}, (∀ c ∈ w, c = ' ' ∨ c = '\t') → ∀ c ∈ w, c ≠ '\n' := by
    intro w h c hc
    rcases h c hc with rfl | rfl <;> decide
  refine ⟨?_, ?_, ?_⟩
  · intro w hws
    have hw' := hwsp hws
    have hwn := hwnl hws
    have hsplit : splitLines ('a' :: '\n' :: (w ++ '\n' :: ['b'])) = [['a'], w, ['b']] := by
      simp [splitLines, lem_splitLines_cat hwn,
        lem_splitLines_noNL (show ∀ c ∈ ('b' :: []), c ≠ '\n' by decide)]
    unfold convert_to_markup
    rw [if_neg (by simp), hsplit]
    simp only [List.map_cons, List.map_nil]
    rw [show processLine (italicPass (boldPass (hrPass
        (h1Pass (h2Pass (h3Pass ['a'])))))) = ("<p>a</p>").data by decide]
    rw [lem_wsline_inert hw']
    rw [show processLine (italicPass (boldPass (hrPass
        (h1Pass (h2Pass (h3Pass ['b'])))))) = ("<p>b</p>").data by decide]
    decide
  · intro ind s hind hplain hne
    cases ind with
    | nil => simp
    | cons i0 ind' =>
      cases s with
      | nil => exact absurd rfl hne
      | cons c0 s' =>
        have hiw := hwsp hind
        have hin := hwnl hind
        have hi0 : isPySpace i0 = true := hiw i0 (List.mem_cons_self i0 ind')
        have hc0 : plainChar c0 = true := hplain c0 (List.mem_cons_self c0 s')
        have hnlR : ∀ c ∈ (c0 :: s'), c ≠ '\n' :=
          fun c hc => lem_plain_ne (hplain c hc) (by decide)
        have hnlL : ∀ c ∈ ((i0 :: ind') ++ (c0 :: s')), c ≠ '\n' := by
          intro c hc
          rcases List.mem_append.mp hc with h | h
          · exact hin c h
          · exact hnlR c h
        have hneL : (i0 :: ind') ++ (c0 :: s') ≠ [] := by simp
        have hstarL : ((i0 :: ind') ++ (c0 :: s')).count '*' = 0 := by
          apply lem_count_ne
          intro c hc
          rcases List.mem_append.mp hc with h | h
          · exact lem_bool_ne (hiw c h) (by decide)
          · exact lem_plain_ne (hplain c h) (by decide)
        have hstarR : (c0 :: s').count '*' = 0 := by
          apply lem_count_ne
          intro c hc
          exact lem_plain_ne (hplain c hc) (by decide)
        have hiHash : ('#' : Char) ≠ i0 := (lem_bool_ne hi0 (by decide)).symm
        have hiDash : ('-' : Char) ≠ i0 := (lem_bool_ne hi0 (by decide)).symm
        have hcHash : ('#' : Char) ≠ c0 := (lem_plain_ne hc0 (by decide)).symm
        have hcDash : ('-' : Char) ≠ c0 := (lem_plain_ne hc0 (by decide)).symm
        have heq : ((i0 :: ind') ++ (c0 :: s')) = i0 :: (ind' ++ (c0 :: s')) := by simp
        have e3L : h3Pass ((i0 :: ind') ++ (c0 :: s')) = (i0 :: ind') ++ (c0 :: s') := by
          rw [heq]; simp [h3Pass, lem_noPref_head hiHash]
        have e2L : h2Pass ((i0 :: ind') ++ (c0 :: s')) = (i0 :: ind') ++ (c0 :: s') := by
          rw [heq]; simp [h2Pass, lem_noPref_head hiHash]
        have e1L : h1Pass ((i0 :: ind') ++ (c0 :: s')) = (i0 :: ind') ++ (c0 :: s') := by
          rw [heq]; simp [h1Pass, lem_noPref_head hiHash]
        have ehL : hrPass ((i0 :: ind') ++ (c0 :: s')) = (i0 :: ind') ++ (c0 :: s') := by
          rw [heq]; simp [hrPass, lem_noPref_head hiDash]
        have e3R : h3Pass (c0 :: s') = c0 :: s' := by
          simp [h3Pass, lem_noPref_head hcHash]
        have e2R : h2Pass (c0 :: s') = c0 :: s' := by
          simp [h2Pass, lem_noPref_head hcHash]
        have e1R : h1Pass (c0 :: s') = c0 :: s' := by
          simp [h1Pass, lem_noPref_head hcHash]
        have ehR : hrPass (c0 :: s') = c0 :: s' := by
          simp [hrPass, lem_noPref_head hcDash]
        have ebL : boldPass ((i0 :: ind') ++ (c0 :: s')) = (i0 :: ind') ++ (c0 :: s') :=
          lem_bold_noop (by rw [hstarL]; decide)
        have eiL : italicPass ((i0 :: ind') ++ (c0 :: s')) = (i0 :: ind') ++ (c0 :: s') :=
          lem_italic_noop (by rw [hstarL]; decide)
        have ebR : boldPass (c0 :: s') = c0 :: s' :=
          lem_bold_noop (by rw [hstarR]; decide)
        have eiR : italicPass (c0 :: s') = c0 :: s' :=
          lem_italic_noop (by rw [hstarR]; decide)
        have epl : processLine ((i0 :: ind') ++ (c0 :: s')) = processLine (c0 :: s') :=
          lem_processLine_congr (lem_strip_ws_pad hiw)
        rw [lem_convert_eval hneL hnlL, lem_convert_eval (by simp) hnlR,
          e3L, e2L, e1L, ehL, ebL, eiL, e3R, e2R, e1R, ehR, ebR, eiR, epl]
  · intro w hws hne
    rw [lem_convert_eval hne (hwnl hws), lem_wsline_inert (hwsp hws)]
    decide

/-- Witness for C10: a space-only line between two text lines acts as a
blank line; a leading space before a plain line does not change the result;
a tab-only input produces a single break. -/
theorem markup_line_strip_classify_witness :
    convert_to_markup ('a' :: '\n' :: ([' '] ++ '\n' :: ['b']))
        = ("<p>a</p>\n<br>\n<p>b</p>").data
    ∧ convert_to_markup ([' '] ++ ['x']) = convert_to_markup ['x']
    ∧ convert_to_markup ['\t'] = ("<br>").data := by
  refine ⟨markup_line_strip_classify.1 [' '] (by decide),
    markup_line_strip_classify.2.1 [' '] ['x'] (by decide) (by decide) (by decide),
    markup_line_strip_classify.2.2 ['\t'] (by decide) (by decide)⟩
